import Mathlib

/-!
Verification of the goisilon HTTP client library (tenortim/goisilon).

The Go source is shallowly embedded: Go strings are `String` (or `List Char`
where character-level reasoning is needed), Go `error` values are an inductive
`GoError`, a Go `(T, error)` pair is `Option T × Option GoError`, and a Go
run-time panic (nil-pointer dereference, index out of range) is the `panic_`
constructor of `GoResult`.
-/

namespace Goisilon

/-- Outcome of running a Go function: either a run-time panic (nil dereference,
index out of range) or a normal return value. -/
inductive GoResult (α : Type) where
  | panic_ : GoResult α
  | ret : α → GoResult α
  deriving DecidableEq, Repr

/-- `Error` from api.go: one entry of the JSON `errors` array
(`{code, field, message}`). -/
structure ApiErr where
  code : String
  field : String
  message : String
  deriving DecidableEq, Repr

/-- `JSONError` from api.go: the decoded non-2xx response body, holding the
HTTP status code and the decoded `errors` array (`Err`). -/
structure JSONError where
  statusCode : Nat
  err : List ApiErr
  deriving DecidableEq, Repr

/-- Go `error` values that occur in the modelled code paths. -/
inductive GoError where
  /-- `io.EOF`, produced by decoding an empty body. -/
  | ioEOF : GoError
  /-- a JSON decode failure with its message. -/
  | decodeErr : String → GoError
  /-- a `*JSONError` returned by `parseJSONError`. -/
  | jsonError : JSONError → GoError
  /-- `errors.New(msg)`. -/
  | errorNew : String → GoError
  deriving DecidableEq, Repr

/-- `(err *JSONError) Error()` from api.go line 453: `return err.Err[0].Message`.
Indexing `Err[0]` panics when the error list is empty. -/
def JSONError.error (e : JSONError) : GoResult String :=
  match e.err with
  | [] => .panic_
  | a :: _ => .ret a.message

/-- Outcome of JSON-decoding a response body into a value of type `α`:
the body is empty (decode yields `io.EOF`), decodes to a value, or is
malformed (decode yields an error message). -/
inductive BodyDecode (α : Type) where
  | empty : BodyDecode α
  | value : α → BodyDecode α
  | malformed : String → BodyDecode α
  deriving DecidableEq, Repr

/-- `parseJSONError` from api.go lines 457-469, applied to a response with the
given status code, status text, and body-decode outcome.  A decode failure
(including `io.EOF` from an empty body) is returned as the error; otherwise
`jsonError.StatusCode` is set from the response and, when the first entry's
message is empty, that message is replaced by the HTTP status text.  The
access `jsonError.Err[0]` panics when the decoded error list is empty. -/
def parseJSONError (statusCode : Nat) (statusText : String)
    (decoded : BodyDecode JSONError) : GoResult GoError :=
  match decoded with
  | .empty => .ret .ioEOF
  | .malformed m => .ret (.decodeErr m)
  | .value j =>
    match j.err with
    | [] => .panic_
    | e :: rest =>
      .ret (.jsonError
        ⟨statusCode,
         { e with message := if e.message = "" then statusText else e.message }
           :: rest⟩)

/-- The response-parsing stage of `DoWithHeaders` (api.go lines 283-298),
applied to a response with the given status code and text.  `respDecode` is
the outcome of decoding the body into the caller's output type `α`,
`errDecode` the outcome of decoding it as a `JSONError`, and `resp` models the
output pointer (`none` = nil pointer, `some v` = pointer to current value
`v`).  The result pairs the final pointed-to value with the returned error.
For 2xx statuses a `nil` output pointer or an `io.EOF` from an empty body
returns success without touching the output; otherwise `parseJSONError`
produces the error. -/
def doWithHeadersParse {α : Type} (statusCode : Nat) (statusText : String)
    (respDecode : BodyDecode α) (errDecode : BodyDecode JSONError)
    (resp : Option α) : GoResult (Option α × Option GoError) :=
  if 200 ≤ statusCode ∧ statusCode ≤ 299 then
    match resp with
    | none => .ret (none, none)
    | some v =>
      match respDecode with
      | .empty => .ret (some v, none)
      | .value a => .ret (some a, none)
      | .malformed m => .ret (some v, some (.decodeErr m))
  else
    match parseJSONError statusCode statusText errDecode with
    | .panic_ => .panic_
    | .ret e => .ret (resp, some e)

/-- The property asserted by the spec for a non-2xx response whose body
decodes to the error list `errs`: `DoWithHeaders` returns (rather than
panics), the returned error is the parsed `JSONError`, and its message is the
first entry's message, or the HTTP status text when that message (or the whole
list) is empty. -/
def nonOkYieldsFirstEntryMessage (statusCode : Nat) (statusText : String)
    (errs : List ApiErr) : Prop :=
  ∃ j : JSONError,
    doWithHeadersParse (α := Unit) statusCode statusText .empty
        (.value ⟨0, errs⟩) none = .ret (none, some (.jsonError j)) ∧
    j.error = .ret
      (match errs with
       | [] => statusText
       | e :: _ => if e.message = "" then statusText else e.message)

/-- C1 counterexample: a 404 response whose body decodes to an empty error
list does not yield an error at all — `parseJSONError` indexes `Err[0]` and
panics — so the claimed property fails for that response body. -/
theorem nonOk_emptyErrList_panics :
    ¬ nonOkYieldsFirstEntryMessage 404 "Not Found" [] := by
  rintro ⟨j, h, -⟩
  nomatch h

/-- C1 (amended): for every non-2xx response whose body decodes to a
NON-EMPTY error list, `DoWithHeaders` returns the parsed `JSONError`
(status code set from the response) and its message is the first entry's
message, or the HTTP status text when that message is empty. -/
theorem doWithHeaders_nonOk_message {α : Type} (statusCode : Nat)
    (statusText : String) (respDecode : BodyDecode α) (resp : Option α)
    (sc : Nat) (e : ApiErr) (rest : List ApiErr)
    (hnot : ¬ (200 ≤ statusCode ∧ statusCode ≤ 299)) :
    doWithHeadersParse statusCode statusText respDecode
        (.value ⟨sc, e :: rest⟩) resp
      = .ret (resp, some (.jsonError
          ⟨statusCode,
           { e with message := if e.message = "" then statusText else e.message }
             :: rest⟩))
    ∧ JSONError.error
        ⟨statusCode,
         { e with message := if e.message = "" then statusText else e.message }
           :: rest⟩
      = .ret (if e.message = "" then statusText else e.message) := by
  constructor
  · simp [doWithHeadersParse, hnot, parseJSONError]
  · rfl

/-- C1 witness: concrete instance of the amended theorem at a 404 response
whose first error entry has an empty message. -/
theorem doWithHeaders_nonOk_message_witness :
    doWithHeadersParse (α := Unit) 404 "Not Found" .empty
        (.value ⟨0, [⟨"AEC", "", ""⟩]⟩) none
      = .ret (none, some (.jsonError ⟨404, [⟨"AEC", "", "Not Found"⟩]⟩))
    ∧ JSONError.error ⟨404, [⟨"AEC", "", "Not Found"⟩]⟩ = .ret "Not Found" := by
  simpa using doWithHeaders_nonOk_message (α := Unit) 404 "Not Found"
    .empty none 0 ⟨"AEC", "", ""⟩ [] (by decide)

/-- C3: a 2xx response with an empty body (decode yields `io.EOF`) and a
non-nil output pointer returns no error and leaves the pointed-to value
exactly as it was before the call. -/
theorem doWithHeaders_okEmptyBody_preserves {α : Type} (statusCode : Nat)
    (statusText : String) (errDecode : BodyDecode JSONError) (v : α)
    (h1 : 200 ≤ statusCode) (h2 : statusCode ≤ 299) :
    doWithHeadersParse statusCode statusText BodyDecode.empty errDecode (some v)
      = .ret (some v, none) := by
  simp [doWithHeadersParse, h1, h2]

/-- C3 witness: concrete instance at status 200 with pointed-to value `3`. -/
theorem doWithHeaders_okEmptyBody_preserves_witness :
    doWithHeadersParse 200 "OK" BodyDecode.empty BodyDecode.empty (some 3)
      = .ret (some 3, none) :=
  doWithHeaders_okEmptyBody_preserves 200 "OK" BodyDecode.empty 3
    (by decide) (by decide)

/-- `headerKeyContentType` from api.go line 23. -/
def headerKeyContentType : String := "Content-Type"

/-- `headerValContentTypeJSON` from api.go line 24. -/
def headerValContentTypeJSON : String := "application/json"

/-- `headerValContentTypeBinaryOctetStream` from api.go line 25. -/
def headerValContentTypeBinaryOctetStream : String := "binary/octet-stream"

/-- Lookup in the Go `headers map[string]string`, modelled as an association
list (first match wins). -/
def lookupHeader (headers : List (String × String)) (k : String) :
    Option String :=
  match headers with
  | [] => none
  | (k', v) :: rest => if k' = k then some v else lookupHeader rest k

/-- The request body argument of `DoAndGetResponseBody`: either a value that
implements `io.ReadCloser` (carrying the raw bytes it will stream) or an
arbitrary value to be JSON-encoded. -/
inductive GoBody (α : Type) where
  | readCloser : List Nat → GoBody α
  | value : α → GoBody α

/-- What `DoAndGetResponseBody` ends up sending: the bytes of the request
body (none when the body argument was nil), the effective `Content-Type`
header, and whether the body was JSON-encoded. -/
structure BuiltBody where
  sentBody : List Nat
  contentType : String
  encodedAsJSON : Bool
  deriving DecidableEq, Repr

/-- The body-marshalling and content-type logic of `DoAndGetResponseBody`
(api.go lines 353-401), including the later header loop that skips
`Content-Type` once it has been set.  `enc` models `json.Encoder.Encode` on
the body type `α` (the encoding of the modelled payload types never fails).
An `io.ReadCloser` body is passed through unencoded with content type taken
from the headers map, defaulting to `binary/octet-stream`; any other body is
JSON-encoded with content type from the headers map, defaulting to
`application/json`; a nil body sends nothing and the content type is whatever
the headers map supplies (empty if none). -/
def setupRequestBody {α : Type} (enc : α → List Nat)
    (body : Option (GoBody α)) (headers : List (String × String)) :
    BuiltBody :=
  match body with
  | some (.readCloser r) =>
    { sentBody := r
      contentType :=
        match lookupHeader headers headerKeyContentType with
        | some v => v
        | none => headerValContentTypeBinaryOctetStream
      encodedAsJSON := false }
  | some (.value v) =>
    { sentBody := enc v
      contentType :=
        match lookupHeader headers headerKeyContentType with
        | some w => w
        | none => headerValContentTypeJSON
      encodedAsJSON := true }
  | none =>
    { sentBody := []
      contentType :=
        match lookupHeader headers headerKeyContentType with
        | some v => v
        | none => ""
      encodedAsJSON := false }

/-- C4: an `io.ReadCloser` body is sent unencoded with `Content-Type` equal
to the headers-map entry when present and `binary/octet-stream` otherwise;
any other non-nil body is JSON-encoded with `Content-Type` equal to the
headers-map entry when present and `application/json` otherwise. -/
theorem setupRequestBody_contentType {α : Type} (enc : α → List Nat)
    (headers : List (String × String)) (raw : List Nat) (v : α) :
    setupRequestBody enc (some (.readCloser raw)) headers
      = { sentBody := raw
          contentType := (lookupHeader headers headerKeyContentType).getD
            headerValContentTypeBinaryOctetStream
          encodedAsJSON := false }
    ∧ setupRequestBody enc (some (.value v)) headers
      = { sentBody := enc v
          contentType := (lookupHeader headers headerKeyContentType).getD
            headerValContentTypeJSON
          encodedAsJSON := true } := by
  cases h : lookupHeader headers headerKeyContentType <;>
    simp [setupRequestBody, h]

/-- `Ownership` from the v1 API package: a name/type pair used in ACL
requests. -/
structure Ownership where
  name : String
  type : String
  deriving DecidableEq, Repr

/-- `AclRequest` from the v1 API package: the body of the ownership-setting
call (`{authoritative, action, owner, group}`; `group` is a nullable
pointer). -/
structure AclRequest where
  authoritative : String
  action : String
  owner : Ownership
  group : Option Ownership
  deriving DecidableEq, Repr

/-- One HTTP call issued through the generic `api.Client`: method, resource
path, resource id, ordered query parameters (each parameter a list of
byte-slices, key first), headers, and the optional `AclRequest` body. -/
structure ApiCall where
  method : String
  uri : String
  id : String
  params : List (List String)
  headers : List (String × String)
  body : Option AclRequest
  deriving DecidableEq, Repr

/-- The volume-create call issued by `CreateIsiVolumeWithACL` (part_000
lines 56-69): a PUT of the volume name under the namespace path with the
target-type/access-control headers and no body.  `nsPath` stands for
`realNamespacePath(client)`. -/
def createVolumeCall (nsPath name acl : String) : ApiCall :=
  { method := "PUT"
    uri := nsPath
    id := name
    params := []
    headers := [("x-isi-ifs-target-type", "container"),
                ("x-isi-ifs-access-control", acl)]
    body := none }

/-- The ownership-setting call issued by `CreateIsiVolumeWithACL` (part_000
lines 75-94): a PUT of the volume name with the `acl` query parameter and an
`AclRequest` body carrying the client's user and, when non-empty, group. -/
def setOwnershipCall (nsPath name user group : String) : ApiCall :=
  { method := "PUT"
    uri := nsPath
    id := name
    params := [["acl"]]
    headers := []
    body := some
      { authoritative := "acl"
        action := "update"
        owner := ⟨user, "user"⟩
        group := if group = "" then none else some ⟨group, "group"⟩ } }

/-- `CreateIsiVolumeWithACL` from part_000 lines 40-97.  `respond` models the
remote appliance: the error (if any) each issued call returns.  The result is
the list of calls actually issued, in order, paired with the returned
error. -/
def CreateIsiVolumeWithACL (respond : ApiCall → Option GoError)
    (nsPath user group name acl : String) :
    List ApiCall × Option GoError :=
  let c1 := createVolumeCall nsPath name acl
  match respond c1 with
  | some e => ([c1], some e)
  | none =>
    let c2 := setOwnershipCall nsPath name user group
    ([c1, c2], respond c2)

/-- C5: `CreateIsiVolumeWithACL` issues the volume-create call and, only when
that call succeeds, the ownership-setting call; it propagates the error of
whichever call fails, and when the second call fails after the first
succeeded the trace is exactly the two calls — no deletion or other
compensating call is issued. -/
theorem CreateIsiVolumeWithACL_sequencing (respond : ApiCall → Option GoError)
    (nsPath user group name acl : String) :
    (∀ e : GoError, respond (createVolumeCall nsPath name acl) = some e →
      CreateIsiVolumeWithACL respond nsPath user group name acl
        = ([createVolumeCall nsPath name acl], some e))
    ∧ (respond (createVolumeCall nsPath name acl) = none →
      CreateIsiVolumeWithACL respond nsPath user group name acl
        = ([createVolumeCall nsPath name acl,
            setOwnershipCall nsPath name user group],
           respond (setOwnershipCall nsPath name user group))) := by
  constructor
  · intro e he
    simp [CreateIsiVolumeWithACL, he]
  · intro hn
    simp [CreateIsiVolumeWithACL, hn]

/-- A concrete appliance for the C5 witness: the volume-create call (the one
with no query parameters) fails with `io.EOF`; everything else succeeds. -/
def failCreateRespond : ApiCall → Option GoError :=
  fun c => if c.params = [] then some GoError.ioEOF else none

/-- C5 witness: with an appliance that fails the create call, the trace is
exactly the create call and the error is propagated. -/
theorem CreateIsiVolumeWithACL_sequencing_witness :
    CreateIsiVolumeWithACL failCreateRespond "ns" "u" "g" "vol" "acl0"
      = ([createVolumeCall "ns" "vol" "acl0"], some GoError.ioEOF) :=
  (CreateIsiVolumeWithACL_sequencing failCreateRespond
    "ns" "u" "g" "vol" "acl0").1 GoError.ioEOF rfl

/-- `IsiSnapshot` from the v1 API package, restricted to the fields the
modelled code reads: `Id`, `Name`, `Path`. -/
structure IsiSnapshot where
  id : Int
  name : String
  path : String
  deriving DecidableEq, Repr

/-- `GetSnapshot` from snapshots.go lines 46-72.  `byId` is the
`(snapshot, err)` pair returned by `api.GetIsiSnapshot(ctx, c.API, id)` and
`listRes` the outcome of `c.GetSnapshots(ctx)` (the full snapshot listing);
both are remote results, supplied as oracles.  When the id lookup succeeds
its pair is returned as-is; when it fails with an empty name the id-lookup
error is returned unchanged; otherwise the listing is scanned for the first
snapshot whose `Name` equals `name`, returning `(nil, nil)` when none
matches. -/
def GetSnapshot (byId : Option IsiSnapshot × Option GoError)
    (listRes : Except GoError (List IsiSnapshot)) (name : String) :
    Option IsiSnapshot × Option GoError :=
  match byId with
  | (s, none) => (s, none)
  | (_, some err) =>
    if name = "" then (none, some err)
    else
      match listRes with
      | .error e => (none, some e)
      | .ok l =>
        match l.find? (fun t => t.name == name) with
        | some s => (some s, none)
        | none => (none, none)

/-- C6: when the id-based lookup fails with error `e` and the name is empty,
`GetSnapshot` returns exactly `e`; when the name is non-empty and the listing
succeeds, it returns the first listed snapshot whose `Name` equals the
name. -/
theorem GetSnapshot_fallback (e : GoError) (s0 : Option IsiSnapshot)
    (listRes : Except GoError (List IsiSnapshot)) (name : String) :
    GetSnapshot (s0, some e) listRes "" = (none, some e)
    ∧ (∀ (l : List IsiSnapshot) (s : IsiSnapshot), name ≠ "" →
        listRes = .ok l → l.find? (fun t => t.name == name) = some s →
        GetSnapshot (s0, some e) listRes name = (some s, none)) := by
  constructor
  · simp [GetSnapshot]
  · intro l s hname hlist hfind
    simp [GetSnapshot, hname, hlist, hfind]

/-- C6 witness: id lookup failed with `io.EOF`; the empty name returns that
error unchanged, and the name `"snap2"` finds the first matching snapshot in
a two-element listing. -/
theorem GetSnapshot_fallback_witness :
    GetSnapshot (none, some GoError.ioEOF)
        (.ok [⟨1, "snap1", "/ifs/volumes/a"⟩, ⟨2, "snap2", "/ifs/volumes/b"⟩])
        "" = (none, some GoError.ioEOF)
    ∧ GetSnapshot (none, some GoError.ioEOF)
        (.ok [⟨1, "snap1", "/ifs/volumes/a"⟩, ⟨2, "snap2", "/ifs/volumes/b"⟩])
        "snap2" = (some ⟨2, "snap2", "/ifs/volumes/b"⟩, none) :=
  ⟨(GetSnapshot_fallback GoError.ioEOF none
      (.ok [⟨1, "snap1", "/ifs/volumes/a"⟩, ⟨2, "snap2", "/ifs/volumes/b"⟩])
      "").1,
   (GetSnapshot_fallback GoError.ioEOF none
      (.ok [⟨1, "snap1", "/ifs/volumes/a"⟩, ⟨2, "snap2", "/ifs/volumes/b"⟩])
      "snap2").2
     [⟨1, "snap1", "/ifs/volumes/a"⟩, ⟨2, "snap2", "/ifs/volumes/b"⟩]
     ⟨2, "snap2", "/ifs/volumes/b"⟩ (by decide) rfl (by decide)⟩

/-- Reading `snapshot.Id` through a possibly-nil pointer: a nil pointer
dereference panics. -/
def snapshotId : Option IsiSnapshot → GoResult Int
  | none => .panic_
  | some s => .ret s.id

/-- `RemoveSnapshot` from snapshots.go lines 82-91: looks the snapshot up via
`GetSnapshot` and, when that returns no error, calls
`api.RemoveIsiSnapshot(ctx, c.API, snapshot.Id)` (modelled by the oracle
`removeRes`).  The field read `snapshot.Id` goes through `snapshotId`, so a
nil snapshot panics. -/
def RemoveSnapshot (byId : Option IsiSnapshot × Option GoError)
    (listRes : Except GoError (List IsiSnapshot))
    (removeRes : Int → Option GoError) (name : String) :
    GoResult (Option GoError) :=
  match GetSnapshot byId listRes name with
  | (_, some e) => .ret (some e)
  | (snap, none) =>
    match snapshotId snap with
    | .panic_ => .panic_
    | .ret i => .ret (removeRes i)

/-- C9: when the id lookup fails, the name is non-empty, and no listed
snapshot's `Name` equals the name (so `GetSnapshot` returns `(nil, nil)`),
`RemoveSnapshot` dereferences the nil snapshot to read `Id` and panics
instead of returning an error. -/
theorem RemoveSnapshot_nilDeref (e : GoError) (s0 : Option IsiSnapshot)
    (l : List IsiSnapshot) (removeRes : Int → Option GoError) (name : String)
    (hname : name ≠ "") (hmiss : ∀ s ∈ l, s.name ≠ name) :
    RemoveSnapshot (s0, some e) (.ok l) removeRes name = .panic_ := by
  have hfind : l.find? (fun t => t.name == name) = none := by
    rw [List.find?_eq_none]
    intro s hs
    simpa using hmiss s hs
  simp [RemoveSnapshot, GetSnapshot, hname, hfind, snapshotId]

/-- The appliance-side deletion oracle used by the C9 witness: deleting any
snapshot id succeeds. -/
def noRemoveErr : Int → Option GoError := fun _ => none

/-- C9 witness: an empty listing with the non-empty name `"missing"` makes
`RemoveSnapshot` panic. -/
theorem RemoveSnapshot_nilDeref_witness :
    RemoveSnapshot (none, some GoError.ioEOF) (.ok []) noRemoveErr "missing"
      = .panic_ :=
  RemoveSnapshot_nilDeref GoError.ioEOF none [] noRemoveErr "missing"
    (by decide) (by simp)

/-- `IsiQuota` from the v1 API package, restricted to the fields the modelled
code reads: `Id` and `Path` (thresholds are never inspected locally). -/
structure IsiQuota where
  id : String
  path : String
  deriving DecidableEq, Repr

/-- `GetIsiQuota` from part_001 lines 12-34.  `fetch` is the outcome of the
`client.Get` listing call (the quotas the appliance returns for the queried
path).  The listing is scanned for the first quota whose `Path` equals the
queried path; when none matches the result is a nil quota with
`errors.New(fmt.Sprintf("Quota not found: %s", path))`. -/
def GetIsiQuota (fetch : Except GoError (List IsiQuota)) (path : String) :
    Option IsiQuota × Option GoError :=
  match fetch with
  | .error e => (none, some e)
  | .ok quotas =>
    match quotas.find? (fun q => q.path == path) with
    | some q => (some q, none)
    | none => (none, some (.errorNew ("Quota not found: " ++ path)))

/-- C7: when the listing succeeds, `GetIsiQuota` returns a quota whose `Path`
equals the queried path whenever one exists in the returned list, and
otherwise returns a nil quota and the error whose message is
`"Quota not found: "` followed by the queried path (so the message contains
both `"Quota not found"` and the path). -/
theorem GetIsiQuota_lookup (l : List IsiQuota) (path : String) :
    ((∃ q ∈ l, q.path = path) →
      ∃ q : IsiQuota, GetIsiQuota (.ok l) path = (some q, none)
        ∧ q.path = path)
    ∧ (l.find? (fun q => q.path == path) = none →
      GetIsiQuota (.ok l) path
        = (none, some (.errorNew ("Quota not found: " ++ path)))) := by
  constructor
  · intro hex
    have hsome : (l.find? (fun q => q.path == path)).isSome := by
      rw [List.find?_isSome]
      obtain ⟨q, hq, hpath⟩ := hex
      exact ⟨q, hq, by simpa using hpath⟩
    obtain ⟨q, hq⟩ := Option.isSome_iff_exists.mp hsome
    refine ⟨q, ?_, ?_⟩
    · simp [GetIsiQuota, hq]
    · simpa using List.find?_some hq
  · intro hfind
    simp [GetIsiQuota, hfind]

/-- C7 witness: in a two-quota listing the quota at path `/ifs/volumes/a` is
found with matching path, and a path present in no listed quota produces the
"Quota not found" error with that path in the message. -/
theorem GetIsiQuota_lookup_witness :
    (∃ q : IsiQuota,
      GetIsiQuota (.ok [⟨"q1", "/ifs/volumes/a"⟩, ⟨"q2", "/ifs/volumes/b"⟩])
          "/ifs/volumes/a" = (some q, none) ∧ q.path = "/ifs/volumes/a")
    ∧ GetIsiQuota (.ok [⟨"q1", "/ifs/volumes/a"⟩, ⟨"q2", "/ifs/volumes/b"⟩])
        "/ifs/volumes/c"
      = (none, some (.errorNew ("Quota not found: " ++ "/ifs/volumes/c"))) :=
  ⟨(GetIsiQuota_lookup [⟨"q1", "/ifs/volumes/a"⟩, ⟨"q2", "/ifs/volumes/b"⟩]
      "/ifs/volumes/a").1 ⟨⟨"q1", "/ifs/volumes/a"⟩, by decide, rfl⟩,
   (GetIsiQuota_lookup [⟨"q1", "/ifs/volumes/a"⟩, ⟨"q2", "/ifs/volumes/b"⟩]
      "/ifs/volumes/c").2 (by decide)⟩

/-- `strconv.ParseUint(s, 10, 8)` from the Go standard library, as used by
`New` (api.go lines 185, 192): errors (`none`) on an empty string, on any
non-digit character, and on values above 255 (bit size 8); the exact
`strconv.NumError` message is not modelled. -/
def parseUint8 (s : String) : Option Nat :=
  if s.data = [] then none
  else if s.data.all (fun c => c.isDigit) then
    let v := s.data.foldl (fun acc c => acc * 10 + (c.toNat - 48)) 0
    if v ≤ 255 then some v else none
  else none

/-- `strings.Index(s, ".")` restricted to the single-character needle used in
api.go line 183: index of the first `'.'`, `none` for Go's `-1`. -/
def indexOfDot : List Char → Option Nat
  | [] => none
  | c :: t => if c = '.' then some 0 else (indexOfDot t).map (· + 1)

/-- The version-determination logic of `New` (api.go lines 180-199): when the
probe response carries no version string (`resp.Latest == nil`) the version
defaults to major 2, minor 0; otherwise the string is split at the first
`'.'` and minor (when present) and major are parsed with
`strconv.ParseUint(_, 10, 8)`, a parse failure aborting construction. -/
def apiVersionOf (latest : Option String) : Except GoError (Nat × Nat) :=
  match latest with
  | none => .ok (2, 0)
  | some s =>
    match indexOfDot s.data with
    | some i =>
      let ms : String := ⟨s.data.drop (i + 1)⟩
      match parseUint8 ms with
      | none => .error (.errorNew ("strconv.ParseUint failed: " ++ ms))
      | some m =>
        let hd : String := ⟨s.data.take i⟩
        match parseUint8 hd with
        | none => .error (.errorNew ("strconv.ParseUint failed: " ++ hd))
        | some mj => .ok (mj, m)
    | none =>
      match parseUint8 s with
      | none => .error (.errorNew ("strconv.ParseUint failed: " ++ s))
      | some mj => .ok (mj, 0)

/-- The outcome of the version probe `c.Get(ctx, "/platform/latest", ...)` in
`New` (api.go line 175). -/
inductive ProbeOutcome where
  | failure : String → ProbeOutcome
  | success : Option String → ProbeOutcome
  deriving DecidableEq, Repr

/-- The version gate at the end of `New` (api.go lines 180-205): determine
the version, then reject major versions below 3.  On success the result is
the established `apiVersion`; on error no client is returned. -/
def versionGate (latest : Option String) : Except GoError Nat :=
  match apiVersionOf latest with
  | .error e => .error e
  | .ok (mj, _) =>
    if mj < 3 then
      .error (.errorNew "OneFS releases older than 8.0 are no longer supported")
    else .ok mj

/-- The version-handling phase of `New` (api.go lines 174-205): a probe
failure whose message does not start with `"json: "` aborts construction with
that error; a decode failure (message starting `"json: "`) is swallowed,
leaving `resp.Latest` nil; otherwise the probed version string feeds the
version gate. -/
def New (probe : ProbeOutcome) : Except GoError Nat :=
  match probe with
  | .failure msg =>
    if "json: ".isPrefixOf msg then versionGate none
    else .error (.errorNew msg)
  | .success latest => versionGate latest

/-- C8: `New` fails whenever the major version determined from the probe is
below 3, and a probe response carrying no version string defaults to major
version 2, so construction fails. -/
theorem New_rejects_old_versions :
    (∀ (latest : Option String) (mj mn : Nat),
      apiVersionOf latest = .ok (mj, mn) → mj < 3 →
      New (.success latest)
        = .error (.errorNew "OneFS releases older than 8.0 are no longer supported"))
    ∧ apiVersionOf none = .ok (2, 0)
    ∧ New (.success none)
        = .error (.errorNew "OneFS releases older than 8.0 are no longer supported") := by
  refine ⟨?_, rfl, rfl⟩
  intro latest mj mn hver hlt
  simp [New, versionGate, hver, hlt]

/-- C8 witness: the probed version string `"2.1"` parses to major 2, which is
below 3, so construction fails with the unsupported-release error. -/
theorem New_rejects_old_versions_witness :
    New (.success (some "2.1"))
      = .error (.errorNew "OneFS releases older than 8.0 are no longer supported") :=
  New_rejects_old_versions.1 (some "2.1") 2 1 rfl (by decide)

/-- `beginsWithSlash` from api.go lines 257-259: `s[0] == '/'`.  Indexing an
empty string panics. -/
def beginsWithSlash : List Char → GoResult Bool
  | [] => .panic_
  | c :: _ => .ret (c == '/')

/-- `endsWithSlash` from api.go lines 261-263: `s[len(s)-1] == '/'`.
Indexing an empty string panics. -/
def endsWithSlash (s : List Char) : GoResult Bool :=
  match s.getLast? with
  | none => .panic_
  | some c => .ret (c == '/')

/-- The URL-assembly portion of `DoAndGetResponseBody` (api.go lines
307-338): the contents of the buffer `ubf` before query parameters are
appended.  The hostname is written, a `/` is added unless the hostname ends
in one (and there is something to follow), a non-empty uri is written with
its leading slash stripped and a trailing slash ensured, and the id is
written as-is. -/
def buildRequestURL (hostname uri id : List Char) : GoResult (List Char) :=
  match endsWithSlash hostname with
  | .panic_ => .panic_
  | .ret hes =>
    match beginsWithSlash uri with
    | .panic_ => .panic_
    | .ret ubs =>
      match endsWithSlash uri with
      | .panic_ => .panic_
      | .ret ues =>
        .ret (hostname
          ++ (if hes = false ∧ (uri ≠ [] ∨ id ≠ []) then ['/'] else [])
          ++ (if uri ≠ [] then
                (if ubs = true then uri.tail else uri)
                  ++ (if ues = true then [] else ['/'])
              else [])
          ++ id)

/-- All leading `'/'` characters removed. -/
def dropLeadingSlashes (l : List Char) : List Char :=
  l.dropWhile (fun c => c == '/')

/-- All trailing `'/'` characters removed. -/
def dropTrailingSlashes (l : List Char) : List Char :=
  (l.reverse.dropWhile (fun c => c == '/')).reverse

/-- The property claimed of the URL assembly: the assembled string is the
hostname content, exactly one slash, the path content, exactly one slash, and
the id content, where "content" is the argument stripped of its edge
slashes.  Zero or two slashes at either boundary falsify the equation. -/
def singleSlashJoin (hostname uri id : List Char) : Prop :=
  buildRequestURL hostname uri id
    = .ret (dropTrailingSlashes hostname
        ++ '/' :: (dropLeadingSlashes (dropTrailingSlashes uri)
        ++ '/' :: dropLeadingSlashes id))

/-- C2 counterexample: with hostname `"h"`, uri `"p"` and id `"/x"` the
assembled URL is `"h/p//x"` — two slashes at the path/id boundary — so the
claimed property fails when the id begins with a slash. -/
theorem buildRequestURL_doubleSlash :
    ¬ singleSlashJoin ['h'] ['p'] ['/', 'x'] := by
  unfold singleSlashJoin
  decide

theorem endsWithSlash_concat_slash (l : List Char) :
    endsWithSlash (l ++ ['/']) = .ret true := by
  simp [endsWithSlash, List.getLast?_concat]

theorem endsWithSlash_ret_false {l : List Char} (h : l ≠ [])
    (h' : l.getLast? ≠ some '/') : endsWithSlash l = .ret false := by
  rcases l.eq_nil_or_concat' with rfl | ⟨L, c, rfl⟩
  · exact absurd rfl h
  · have hc : c ≠ '/' := by
      rintro rfl
      exact h' (List.getLast?_concat L)
    simp [endsWithSlash, List.getLast?_concat, hc]

theorem beginsWithSlash_ret_false {l : List Char} (h : l ≠ [])
    (h' : l.head? ≠ some '/') : beginsWithSlash l = .ret false := by
  cases l with
  | nil => exact absurd rfl h
  | cons c t =>
    have hc : c ≠ '/' := by
      rintro rfl
      exact h' rfl
    simp [beginsWithSlash, hc]

theorem dropLeadingSlashes_eq_self {l : List Char}
    (h' : l.head? ≠ some '/') : dropLeadingSlashes l = l := by
  cases l with
  | nil => rfl
  | cons c t =>
    have hc : c ≠ '/' := by
      rintro rfl
      exact h' rfl
    simp [dropLeadingSlashes, List.dropWhile_cons, hc]

theorem dropTrailingSlashes_concat_slash (l : List Char) :
    dropTrailingSlashes (l ++ ['/']) = dropTrailingSlashes l := by
  simp [dropTrailingSlashes, List.dropWhile_cons]

theorem dropTrailingSlashes_eq_self {l : List Char}
    (h' : l.getLast? ≠ some '/') : dropTrailingSlashes l = l := by
  rcases l.eq_nil_or_concat' with rfl | ⟨L, c, rfl⟩
  · rfl
  · have hc : c ≠ '/' := by
      rintro rfl
      exact h' (List.getLast?_concat L)
    simp [dropTrailingSlashes, List.dropWhile_cons, hc]

/-- C2 (amended): for a non-empty hostname with at most one optional trailing
slash, a non-empty path with at most one optional leading and one optional
trailing slash, and a non-empty id that does not begin with a slash, the
assembled URL has exactly one slash at the hostname/path boundary and exactly
one at the path/id boundary.  (An id beginning with a slash produces a double
slash, per the counterexample.) -/
theorem buildRequestURL_singleSlash (h₀ u₀ i s1 s2 s3 : List Char)
    (hs1 : s1 = [] ∨ s1 = ['/']) (hs2 : s2 = [] ∨ s2 = ['/'])
    (hs3 : s3 = [] ∨ s3 = ['/'])
    (hh : h₀ ≠ []) (hu : u₀ ≠ []) (hi : i ≠ [])
    (hhl : h₀.getLast? ≠ some '/') (huh : u₀.head? ≠ some '/')
    (hul : u₀.getLast? ≠ some '/') (hih : i.head? ≠ some '/') :
    singleSlashJoin (h₀ ++ s1) (s2 ++ u₀ ++ s3) i := by
  have fa0 : endsWithSlash h₀ = .ret false := endsWithSlash_ret_false hh hhl
  have fa1 : endsWithSlash (h₀ ++ ['/']) = .ret true :=
    endsWithSlash_concat_slash h₀
  have fb0 : beginsWithSlash u₀ = .ret false := beginsWithSlash_ret_false hu huh
  have fb1 : beginsWithSlash (u₀ ++ ['/']) = .ret false :=
    beginsWithSlash_ret_false (by simp [hu])
      (by rw [List.head?_append_of_ne_nil u₀ hu]; exact huh)
  have fc0 : endsWithSlash u₀ = .ret false := endsWithSlash_ret_false hu hul
  have fc1 : endsWithSlash (u₀ ++ ['/']) = .ret true :=
    endsWithSlash_concat_slash u₀
  have hglcons : ('/' :: u₀).getLast? = u₀.getLast? := by
    rw [show ('/' :: u₀ : List Char) = ['/'] ++ u₀ from rfl,
      List.getLast?_append_of_ne_nil _ hu]
  have fc0' : endsWithSlash ('/' :: u₀) = .ret false :=
    endsWithSlash_ret_false (by simp) (by rw [hglcons]; exact hul)
  have fc1' : endsWithSlash ('/' :: (u₀ ++ ['/'])) = .ret true := by
    have : '/' :: (u₀ ++ ['/']) = ('/' :: u₀) ++ ['/'] := by simp
    rw [this]
    exact endsWithSlash_concat_slash _
  have d1 : dropTrailingSlashes h₀ = h₀ := dropTrailingSlashes_eq_self hhl
  have d1' : dropTrailingSlashes (h₀ ++ ['/']) = h₀ := by
    rw [dropTrailingSlashes_concat_slash]; exact d1
  have d3 : dropTrailingSlashes u₀ = u₀ := dropTrailingSlashes_eq_self hul
  have d3' : dropTrailingSlashes (u₀ ++ ['/']) = u₀ := by
    rw [dropTrailingSlashes_concat_slash]; exact d3
  have d4 : dropTrailingSlashes ('/' :: u₀) = '/' :: u₀ :=
    dropTrailingSlashes_eq_self (by rw [hglcons]; exact hul)
  have d4' : dropTrailingSlashes ('/' :: (u₀ ++ ['/'])) = '/' :: u₀ := by
    have : '/' :: (u₀ ++ ['/']) = ('/' :: u₀) ++ ['/'] := by simp
    rw [this, dropTrailingSlashes_concat_slash]
    exact d4
  have e0 : dropLeadingSlashes u₀ = u₀ := dropLeadingSlashes_eq_self huh
  have e1 : dropLeadingSlashes ('/' :: u₀) = u₀ := by
    have hstep : dropLeadingSlashes ('/' :: u₀) = dropLeadingSlashes u₀ := by
      simp [dropLeadingSlashes, List.dropWhile_cons]
    rw [hstep, e0]
  have e2 : dropLeadingSlashes i = i := dropLeadingSlashes_eq_self hih
  have fbt : ∀ z : List Char, beginsWithSlash ('/' :: z) = .ret true :=
    fun z => by simp [beginsWithSlash]
  rcases hs1 with rfl | rfl <;> rcases hs2 with rfl | rfl <;>
    rcases hs3 with rfl | rfl <;>
    simp only [List.append_nil, List.nil_append, List.singleton_append,
      List.cons_append] <;>
    unfold singleSlashJoin buildRequestURL
  all_goals
    first
    | rw [fa0, fb0, fc0]
    | rw [fa0, fb1, fc1]
    | rw [fa0, fbt, fc0']
    | rw [fa0, fbt, fc1']
    | rw [fa1, fb0, fc0]
    | rw [fa1, fb1, fc1]
    | rw [fa1, fbt, fc0']
    | rw [fa1, fbt, fc1']
  all_goals
    simp [d1, d1', d3, d3', d4, d4', e0, e1, e2, hu, hi]

/-- C2 witness: hostname `"h/"` (trailing slash), uri `"/p"` (leading slash),
id `"x"`: the assembled URL is `"h/p/x"`, single slashes at both
boundaries. -/
theorem buildRequestURL_singleSlash_witness :
    singleSlashJoin (['h'] ++ ['/']) ((['/'] ++ ['p']) ++ []) ['x'] :=
  buildRequestURL_singleSlash ['h'] ['p'] ['x'] ['/'] ['/'] []
    (Or.inr rfl) (Or.inr rfl) (Or.inl rfl)
    (by decide) (by decide) (by decide)
    (by decide) (by decide) (by decide) (by decide)

/-- A path split at every `'/'` into segments (the `'/'` characters are not
kept; n slashes produce n+1 segments, empty segments marking adjacent,
leading or trailing slashes). -/
def splitSegs : List Char → List (List Char)
  | [] => [[]]
  | c :: t =>
    if c = '/' then [] :: splitSegs t
    else
      match splitSegs t with
      | [] => [[c]]
      | s :: ss => (c :: s) :: ss

/-- The segment processing of Go's `path.Clean` (standard library), which
api.go line 450 invokes through `path.Join`: empty and `"."` segments are
dropped; `".."` pops the latest retained segment, is dropped at the root of a
rooted path, and is retained in an unrooted path when there is nothing to
pop.  `acc` is the retained stack, most recent segment first. -/
def cleanSegs (rooted : Bool) :
    List (List Char) → List (List Char) → List (List Char)
  | acc, [] => acc
  | acc, seg :: rest =>
    if seg = [] ∨ seg = ['.'] then cleanSegs rooted acc rest
    else if seg = ['.', '.'] then
      match acc with
      | [] =>
        if rooted then cleanSegs rooted [] rest
        else cleanSegs rooted [['.', '.']] rest
      | a :: as =>
        if a = ['.', '.'] then cleanSegs rooted (['.', '.'] :: a :: as) rest
        else cleanSegs rooted as rest
    else cleanSegs rooted (seg :: acc) rest

/-- The retained segments joined with single slashes. -/
def renderSegs : List (List Char) → List Char
  | [] => []
  | [s] => s
  | s :: rest => s ++ '/' :: renderSegs rest

/-- Go's `path.Clean` (standard library), modelled through its segment
semantics: an empty path cleans to `"."`, a path is rooted when it starts
with `'/'`, the segments are processed by `cleanSegs`, and the result is the
retained segments joined by single slashes, prefixed by `'/'` when rooted,
with `"/"` respectively `"."` when nothing is retained. -/
def clean (p : List Char) : List Char :=
  match p with
  | [] => ['.']
  | c :: _ =>
    match cleanSegs (c == '/') [] (splitSegs p) with
    | [] => if c == '/' then ['/'] else ['.']
    | a :: as =>
      (if c == '/' then ['/'] else []) ++ renderSegs ((a :: as).reverse)

/-- Go's `path.Join` for two elements (standard library): non-empty elements
are joined with `'/'` and the result cleaned; when every element is empty the
result is the empty string, before any cleaning. -/
def goPathJoin (a b : List Char) : List Char :=
  if a = [] then (if b = [] then [] else clean b)
  else if b = [] then clean a
  else clean (a ++ '/' :: b)

/-- `defaultVolumesPath` from api.go line 26: `"/ifs/volumes"`. -/
def defaultVolumesPath : List Char :=
  ['/', 'i', 'f', 's', '/', 'v', 'o', 'l', 'u', 'm', 'e', 's']

/-- `VolumePath` from api.go lines 449-451:
`path.Join(c.volumePath, volumeName)`, with the configured volumes path
passed explicitly. -/
def VolumePath (volumePath name : List Char) : List Char :=
  goPathJoin volumePath name

/-- Whether the string contains two adjacent slashes. -/
def hasDoubleSlash : List Char → Bool
  | [] => false
  | [_] => false
  | a :: b :: t => (a == '/' && b == '/') || hasDoubleSlash (b :: t)

/-- List prefix test (Go `strings.HasPrefix` on the character level). -/
def isPrefixList : List Char → List Char → Bool
  | [], _ => true
  | _ :: _, [] => false
  | a :: as, b :: bs => a == b && isPrefixList as bs

/-- Whether path `p` lies inside the root `root`: it is the root itself or
has `root ++ "/"` as a prefix. -/
def insideRoot (root p : List Char) : Bool :=
  p == root || isPrefixList (root ++ ['/']) p

/-- The property C10 claims of `VolumePath` at a configured volumes path `vp`
and a name: the result has no `"."` or `".."` segments and no repeated
slashes; an empty name returns `vp` itself; and a name beginning with
`"../"` yields a path outside the volumes root. -/
def volumePathClaimAt (vp name : List Char) : Prop :=
  (hasDoubleSlash (VolumePath vp name) = false
    ∧ ∀ s ∈ splitSegs (VolumePath vp name), s ≠ ['.'] ∧ s ≠ ['.', '.'])
  ∧ (name = [] → VolumePath vp name = vp)
  ∧ (isPrefixList ['.', '.', '/'] name = true →
      insideRoot vp (VolumePath vp name) = false)

/-- C10 counterexample: under the default volumes path `/ifs/volumes`, the
name `"../volumes/x"` begins with `"../"` yet
`VolumePath = Clean("/ifs/volumes/../volumes/x") = "/ifs/volumes/x"`, which
lies inside the volumes root — so a `"../"` name does not always yield a path
outside the root. -/
theorem VolumePath_dotdot_stays_inside :
    ¬ volumePathClaimAt defaultVolumesPath
        ['.', '.', '/', 'v', 'o', 'l', 'u', 'm', 'e', 's', '/', 'x'] := by
  unfold volumePathClaimAt
  decide

/-- A retained segment of a cleaned rooted path: non-empty, slash-free, and
neither `"."` nor `".."`. -/
def goodSeg (s : List Char) : Prop :=
  s ≠ [] ∧ '/' ∉ s ∧ s ≠ ['.'] ∧ s ≠ ['.', '.']

theorem splitSegs_no_slash : ∀ (l : List Char), ∀ s ∈ splitSegs l, '/' ∉ s := by
  intro l
  induction l with
  | nil =>
    intro s hs
    simp only [splitSegs, List.mem_singleton] at hs
    simp [hs]
  | cons c t ih =>
    intro s hs
    by_cases hc : c = '/'
    · rw [splitSegs, if_pos hc] at hs
      rcases List.mem_cons.mp hs with rfl | hs'
      · simp
      · exact ih s hs'
    · rw [splitSegs, if_neg hc] at hs
      cases h : splitSegs t with
      | nil =>
        rw [h] at hs
        simp only [List.mem_singleton] at hs
        subst hs
        intro hm
        rcases List.mem_singleton.mp hm with rfl
        exact hc rfl
      | cons s0 ss =>
        rw [h] at hs
        rcases List.mem_cons.mp hs with rfl | hs'
        · intro hm
          rcases List.mem_cons.mp hm with h' | h'
          · exact hc h'.symm
          · exact ih s0 (h ▸ List.mem_cons_self s0 ss) h'
        · exact ih s (h ▸ List.mem_cons_of_mem s0 hs')

theorem cleanSegs_good :
    ∀ (segs acc : List (List Char)), (∀ s ∈ acc, goodSeg s) →
      (∀ s ∈ segs, '/' ∉ s) →
      ∀ s ∈ cleanSegs true acc segs, goodSeg s := by
  intro segs
  induction segs with
  | nil =>
    intro acc hacc _ s hs
    exact hacc s hs
  | cons seg rest ih =>
    intro acc hacc hsl s hs
    have hrest : ∀ s ∈ rest, '/' ∉ s :=
      fun s hs => hsl s (List.mem_cons_of_mem seg hs)
    rw [cleanSegs.eq_def] at hs
    simp only [] at hs
    by_cases h1 : seg = [] ∨ seg = ['.']
    · rw [if_pos h1] at hs
      exact ih acc hacc hrest s hs
    · by_cases h2 : seg = ['.', '.']
      · cases acc with
        | nil =>
          rw [if_neg h1, if_pos h2] at hs
          simp only [] at hs
          rw [if_pos trivial] at hs
          exact ih [] (by simp) hrest s hs
        | cons a as =>
          have ha : a ≠ ['.', '.'] :=
            (hacc a (List.mem_cons_self a as)).2.2.2
          rw [if_neg h1, if_pos h2] at hs
          simp only [] at hs
          rw [if_neg ha] at hs
          exact ih as (fun s hs => hacc s (List.mem_cons_of_mem a hs)) hrest s hs
      · rw [if_neg h1, if_neg h2] at hs
        have hgood : goodSeg seg := by
          refine ⟨?_, hsl seg (List.mem_cons_self seg rest), ?_, h2⟩
          · intro h
            exact h1 (Or.inl h)
          · intro h
            exact h1 (Or.inr h)
        refine ih (seg :: acc) ?_ hrest s hs
        intro s' hs'
        rcases List.mem_cons.mp hs' with rfl | hs''
        · exact hgood
        · exact hacc s' hs''

theorem splitSegs_of_no_slash :
    ∀ (s : List Char), '/' ∉ s → splitSegs s = [s] := by
  intro s
  induction s with
  | nil => intro _; rfl
  | cons c t ih =>
    intro h
    have hc : ¬ c = '/' := fun hh => h (hh ▸ List.mem_cons_self c t)
    rw [splitSegs, if_neg hc, ih (fun hm => h (List.mem_cons_of_mem c hm))]

theorem splitSegs_append_slash :
    ∀ (s r : List Char), '/' ∉ s →
      splitSegs (s ++ '/' :: r) = s :: splitSegs r := by
  intro s r
  induction s with
  | nil =>
    intro _
    rw [List.nil_append, splitSegs, if_pos rfl]
  | cons c t ih =>
    intro h
    have hc : ¬ c = '/' := fun hh => h (hh ▸ List.mem_cons_self c t)
    rw [List.cons_append, splitSegs, if_neg hc,
      ih (fun hm => h (List.mem_cons_of_mem c hm))]

theorem splitSegs_renderSegs :
    ∀ (segs : List (List Char)), segs ≠ [] →
      (∀ s ∈ segs, s ≠ [] ∧ '/' ∉ s) →
      splitSegs (renderSegs segs) = segs := by
  intro segs
  induction segs with
  | nil => intro h _; exact absurd rfl h
  | cons s rest ih =>
    intro _ hgood
    cases rest with
    | nil =>
      rw [renderSegs]
      exact splitSegs_of_no_slash s (hgood s (List.mem_cons_self s [])).2
    | cons r rest' =>
      rw [renderSegs, splitSegs_append_slash s _
          (hgood s (List.mem_cons_self s (r :: rest'))).2,
        ih (List.cons_ne_nil r rest')
          (fun s' hs' => hgood s' (List.mem_cons_of_mem s hs'))]
      exact List.cons_ne_nil r rest'

theorem hds_of_no_slash :
    ∀ (s : List Char), '/' ∉ s → hasDoubleSlash s = false := by
  intro s
  induction s with
  | nil => intro _; rfl
  | cons a t ih =>
    intro h
    cases t with
    | nil => rfl
    | cons b t' =>
      have ha : (a == '/') = false := by
        simp only [beq_eq_false_iff_ne]
        exact fun hh => h (hh ▸ List.mem_cons_self a _)
      rw [hasDoubleSlash, ha]
      simpa using ih (fun hm => h (List.mem_cons_of_mem a hm))

theorem hds_cons_slash {r : List Char} (h1 : hasDoubleSlash r = false)
    (h2 : r.head? ≠ some '/') : hasDoubleSlash ('/' :: r) = false := by
  cases r with
  | nil => rfl
  | cons b t =>
    have hb : (b == '/') = false := by
      simp only [beq_eq_false_iff_ne]
      exact fun hh => h2 (by simp [hh])
    rw [hasDoubleSlash, hb]
    simpa using h1

theorem hds_append_slash :
    ∀ (s : List Char) {r : List Char}, '/' ∉ s →
      hasDoubleSlash r = false → r.head? ≠ some '/' →
      hasDoubleSlash (s ++ '/' :: r) = false := by
  intro s
  induction s with
  | nil =>
    intro r _ h1 h2
    exact hds_cons_slash h1 h2
  | cons c t ih =>
    intro r h h1 h2
    have hc : (c == '/') = false := by
      simp only [beq_eq_false_iff_ne]
      exact fun hh => h (hh ▸ List.mem_cons_self c t)
    have hrec := ih (fun hm => h (List.mem_cons_of_mem c hm)) h1 h2
    cases t with
    | nil =>
      simp only [List.cons_append, List.nil_append]
      rw [hasDoubleSlash, hc]
      simpa using hds_cons_slash h1 h2
    | cons d t' =>
      simp only [List.cons_append] at hrec ⊢
      rw [hasDoubleSlash, hc]
      simpa using hrec

theorem head?_renderSegs_ne_slash :
    ∀ (segs : List (List Char)), (∀ s ∈ segs, s ≠ [] ∧ '/' ∉ s) →
      (renderSegs segs).head? ≠ some '/' := by
  intro segs hgood
  cases segs with
  | nil => simp [renderSegs]
  | cons s rest =>
    obtain ⟨hne, hnsl⟩ := hgood s (List.mem_cons_self s rest)
    cases s with
    | nil => exact absurd rfl hne
    | cons c s0 =>
      have hc : c ≠ '/' := fun hh => hnsl (hh ▸ List.mem_cons_self c s0)
      cases rest with
      | nil =>
        rw [renderSegs]
        simpa using fun hh => hc hh
      | cons r rest' =>
        rw [renderSegs, List.cons_append]
        · simpa using fun hh => hc hh
        · exact List.cons_ne_nil r rest'

theorem hds_renderSegs :
    ∀ (segs : List (List Char)), (∀ s ∈ segs, s ≠ [] ∧ '/' ∉ s) →
      hasDoubleSlash (renderSegs segs) = false := by
  intro segs
  induction segs with
  | nil => intro _; rfl
  | cons s rest ih =>
    intro hgood
    cases rest with
    | nil =>
      rw [renderSegs]
      exact hds_of_no_slash s (hgood s (List.mem_cons_self s [])).2
    | cons r rest' =>
      rw [renderSegs]
      · refine hds_append_slash s (hgood s (List.mem_cons_self s _)).2
          (ih (fun s' hs' => hgood s' (List.mem_cons_of_mem s hs'))) ?_
        exact head?_renderSegs_ne_slash (r :: rest')
          (fun s' hs' => hgood s' (List.mem_cons_of_mem s hs'))
      · exact List.cons_ne_nil r rest'

/-- The cleaned form of any rooted path (leading `'/'`) has no repeated
slashes and no `"."` or `".."` segments. -/
theorem clean_rooted_props (p : List Char) (hp : p.head? = some '/') :
    hasDoubleSlash (clean p) = false
      ∧ ∀ s ∈ splitSegs (clean p), s ≠ ['.'] ∧ s ≠ ['.', '.'] := by
  cases p with
  | nil => simp at hp
  | cons c t =>
    have hc : c = '/' := by simpa using hp
    subst hc
    have hstack : ∀ s ∈ cleanSegs true [] (splitSegs ('/' :: t)), goodSeg s :=
      cleanSegs_good (splitSegs ('/' :: t)) [] (by simp)
        (splitSegs_no_slash ('/' :: t))
    rw [clean]
    cases hs : cleanSegs (('/' : Char) == '/') [] (splitSegs ('/' :: t)) with
    | nil =>
      have hif : (if (('/' : Char) == '/') = true then (['/'] : List Char)
          else ['.']) = ['/'] := rfl
      rw [hif]
      exact ⟨by decide, by decide⟩
    | cons a as =>
      have hs' : cleanSegs true [] (splitSegs ('/' :: t)) = a :: as := by
        simpa using hs
      have hgood : ∀ s ∈ (a :: as).reverse, s ≠ [] ∧ '/' ∉ s := by
        intro s hsmem
        have := hstack s (hs' ▸ List.mem_reverse.mp hsmem)
        exact ⟨this.1, this.2.1⟩
      have hgood2 : ∀ s ∈ (a :: as).reverse, s ≠ ['.'] ∧ s ≠ ['.', '.'] := by
        intro s hsmem
        have := hstack s (hs' ▸ List.mem_reverse.mp hsmem)
        exact ⟨this.2.2.1, this.2.2.2⟩
      simp only []
      have hif : (if (('/' : Char) == '/') = true then (['/'] : List Char)
          else []) = ['/'] := rfl
      rw [hif, List.singleton_append]
      constructor
      · exact hds_cons_slash (hds_renderSegs _ hgood)
          (head?_renderSegs_ne_slash _ hgood)
      · have hsplit : splitSegs ('/' :: renderSegs ((a :: as).reverse))
            = [] :: (a :: as).reverse := by
          rw [splitSegs, if_pos rfl,
            splitSegs_renderSegs _ (by simp) hgood]
        rw [hsplit]
        intro s hsmem
        rcases List.mem_cons.mp hsmem with rfl | hsmem'
        · exact ⟨by simp, by simp⟩
        · exact hgood2 s hsmem'

/-- C10 (amended): for every non-empty configured volumes path,
`VolumePath(name)` is the lexically cleaned join of that path and the name;
whenever the configured volumes path is absolute, the result contains no
`"."` or `".."` segments and no repeated slashes; whenever the configured
volumes path is in cleaned form, `VolumePath("")` equals it; and a name
beginning with `"../"` can yield a path outside the volumes root (`"../x"`
under the default root gives `/ifs/x`), though it need not (see the
counterexample). -/
theorem VolumePath_cleanJoin (vp name : List Char) :
    (vp ≠ [] → VolumePath vp name
        = if name = [] then clean vp else clean (vp ++ '/' :: name))
    ∧ (vp.head? = some '/' →
        hasDoubleSlash (VolumePath vp name) = false
        ∧ ∀ s ∈ splitSegs (VolumePath vp name), s ≠ ['.'] ∧ s ≠ ['.', '.'])
    ∧ (clean vp = vp → VolumePath vp [] = vp)
    ∧ VolumePath defaultVolumesPath ['.', '.', '/', 'x']
        = ['/', 'i', 'f', 's', '/', 'x']
    ∧ insideRoot defaultVolumesPath
        (VolumePath defaultVolumesPath ['.', '.', '/', 'x']) = false := by
  have hjoin : vp ≠ [] → VolumePath vp name
      = if name = [] then clean vp else clean (vp ++ '/' :: name) := by
    intro hvp
    cases name with
    | nil =>
      rw [VolumePath, goPathJoin, if_neg hvp, if_pos rfl]
    | cons n nm =>
      rw [VolumePath, goPathJoin, if_neg hvp, if_neg (List.cons_ne_nil n nm)]
  refine ⟨hjoin, ?_, ?_, by decide, by decide⟩
  · intro hroot
    have hvp : vp ≠ [] := by
      intro h
      rw [h] at hroot
      simp at hroot
    rw [hjoin hvp]
    by_cases hname : name = []
    · rw [if_pos hname]
      exact clean_rooted_props vp hroot
    · rw [if_neg hname]
      refine clean_rooted_props _ ?_
      rw [List.head?_append_of_ne_nil vp hvp]
      exact hroot
  · intro hclean
    have hvp : vp ≠ [] := by
      intro h
      rw [h] at hclean
      exact absurd hclean (by decide)
    rw [VolumePath, goPathJoin, if_neg hvp, if_pos rfl, hclean]

/-- C10 witness: concrete instance at the default volumes path
`/ifs/volumes` (non-empty, absolute and cleaned) and the name `"a"`,
discharging each conjunct's hypothesis. -/
theorem VolumePath_cleanJoin_witness :
    (VolumePath defaultVolumesPath ['a']
        = if (['a'] : List Char) = [] then clean defaultVolumesPath
          else clean (defaultVolumesPath ++ '/' :: ['a']))
    ∧ (hasDoubleSlash (VolumePath defaultVolumesPath ['a']) = false
        ∧ ∀ s ∈ splitSegs (VolumePath defaultVolumesPath ['a']),
            s ≠ ['.'] ∧ s ≠ ['.', '.'])
    ∧ VolumePath defaultVolumesPath [] = defaultVolumesPath :=
  ⟨(VolumePath_cleanJoin defaultVolumesPath ['a']).1 (by decide),
   (VolumePath_cleanJoin defaultVolumesPath ['a']).2.1 (by decide),
   (VolumePath_cleanJoin defaultVolumesPath ['a']).2.2.1 (by decide)⟩

end Goisilon
